import Mathlib

/-!
Verification of the pterm live-printer core (`multi_live_printer.go`):
the `ProgressbarPrinter` state machine (`Add` / `Stop` / `getString`) and
the `MultiPrinter` buffer multiplexer (`NewWriter` / `getString`).

Shallow embedding conventions:
* Go `int` is modelled as `Int`; Go integer division (truncation toward
  zero) is `Int.tdiv`, Go `len` on strings is `String.utf8ByteSize`.
* External collaborators (terminal width probe, wall clock, the
  float64 `math.Log10`, ANSI styling) are passed in as a `RenderEnv`.
  Styling primitives (`Style.Sprint`, `Gray`, `LightWhite`, the RGB fade)
  are modelled as the identity on the text, and `RemoveColorFromString`
  accordingly also as the identity, matching the contract that visible
  length is the length of the unstyled text.
* I/O (`Fprinto`, `Fprintln`, cursor control) and the rerender task are
  not part of the observable state the claims mention and are omitted;
  the global `ActiveProgressBarPrinters` slice is modelled as a list of
  pointer identities (`Nat`).
-/

namespace Pterm

/-- State of a `ProgressbarPrinter` (multi_live_printer.go, lines 190-216).
Fields not touched by any claim (styles, writer, timestamps, rerender task)
are external or I/O-bound and omitted. -/
structure ProgressbarPrinter where
  Title : String
  Total : Int
  Current : Int
  BarCharacter : String
  LastCharacter : String
  BarFiller : String
  MaxWidth : Int
  ShowElapsedTime : Bool
  ShowCount : Bool
  ShowTitle : Bool
  ShowPercentage : Bool
  RemoveWhenDone : Bool
  IsActive : Bool
  deriving DecidableEq, Inhabited

/-- Removal of the first matching pointer from `ActiveProgressBarPrinters`
(multi_live_printer.go, lines 515-522: range loop with `break`). -/
def eraseFirst : List Nat → Nat → List Nat
  | [], _ => []
  | x :: xs, pid => if x = pid then xs else x :: eraseFirst xs pid

/-- `ProgressbarPrinter.Stop` (multi_live_printer.go, lines 490-525),
restricted to the observable state: if `IsActive` is already false it
returns immediately, otherwise it clears `IsActive` and removes the
printer (identified by `pid`) from the registry.  Cursor/terminal I/O and
the rerender-task cancellation carry no observable state and are omitted. -/
def Stop (p : ProgressbarPrinter) (reg : List Nat) (pid : Nat) :
    ProgressbarPrinter × List Nat :=
  if p.IsActive = false then (p, reg)
  else ({ p with IsActive := false }, eraseFirst reg pid)

/-- Result of `ProgressbarPrinter.Add`: the printer state, the registry,
and the returned pointer (`none` models the `nil` return; `some` models
returning the receiver, whose pointee is the final state). -/
structure AddResult where
  printer : ProgressbarPrinter
  registry : List Nat
  ret : Option ProgressbarPrinter
  deriving DecidableEq

/-- `ProgressbarPrinter.Add` (multi_live_printer.go, lines 429-451):
returns `nil` without mutating anything when `Total == 0`; otherwise adds
`count` to `Current`, and when the new `Current` reaches `Total`, raises
`Total` to the new `Current` and calls `Stop`. -/
def Add (p : ProgressbarPrinter) (reg : List Nat) (pid : Nat) (count : Int) :
    AddResult :=
  if p.Total = 0 then ⟨p, reg, none⟩
  else
    let p1 := { p with Current := p.Current + count }
    if p1.Current ≥ p1.Total then
      let p2 := { p1 with Total := p1.Current }
      let s := Stop p2 reg pid
      ⟨s.1, s.2, some s.1⟩
    else ⟨p1, reg, some p1⟩

/-- The printer-state component of one `Add` call (registry and pointer
identity do not influence the printer state). -/
def addStep (p : ProgressbarPrinter) (n : Int) : ProgressbarPrinter :=
  (Add p [] 0 n).printer

/-- Claim C3: Stop is idempotent: a second Stop returns immediately and
changes neither the printer state nor the registry, so two Stops in a row
give exactly the state of one Stop (which is always inactive). -/
theorem stop_idempotent (p : ProgressbarPrinter) (reg : List Nat) (pid : Nat) :
    Stop (Stop p reg pid).1 (Stop p reg pid).2 pid = Stop p reg pid ∧
    ((Stop p reg pid).1).IsActive = false := by
  unfold Stop
  by_cases h : p.IsActive = false <;> simp [h]

/-- Claim C9: the pointer returned by `Add` is `nil` exactly when
`Total == 0` at entry; in every other case it is the receiver (whose
pointee is the final state). -/
theorem add_ret_nil_iff_total_zero (p : ProgressbarPrinter) (reg : List Nat)
    (pid : Nat) (n : Int) :
    (Add p reg pid n).ret =
      if p.Total = 0 then none else some (Add p reg pid n).printer := by
  unfold Add
  by_cases h : p.Total = 0
  · simp [h]
  · simp only [h, if_false]
    split <;> rfl

/-- External collaborators consumed by `getString`:
`termWidth` models `GetTerminalWidth()`, `elapsedStr` the formatted
`parseElapsedTime()` (wall clock), and `log10Floor` the value of
`int(math.Log10(float64 n))` (a float64 computation outside this
embedding). -/
structure RenderEnv where
  termWidth : Int
  elapsedStr : String
  log10Floor : Int → Int

/-- `strings.Repeat`. -/
def repeatStr (s : String) (n : Nat) : String :=
  String.join (List.replicate n s)

/-- Width selection (multi_live_printer.go, lines 384-390). -/
def widthOf (env : RenderEnv) (p : ProgressbarPrinter) : Int :=
  if p.MaxWidth ≤ 0 then env.termWidth
  else if env.termWidth < p.MaxWidth then env.termWidth
  else p.MaxWidth

/-- `fmt.Sprintf("%0*d", w, n)`: zero-pad the decimal form of `n` on the
left to at least `w` characters, sign first. -/
def zeroPad (w : Nat) (n : Int) : String :=
  if n < 0 then
    let ds := toString (-n)
    "-" ++ String.join (List.replicate (w - 1 - ds.length) "0") ++ ds
  else
    let ds := toString n
    String.join (List.replicate (w - ds.length) "0") ++ ds

/-- `fmt.Sprintf("%3d", n)`: space-pad the decimal form of `n` on the
left to at least 3 characters. -/
def spacePad3 (n : Int) : String :=
  let ds := toString n
  String.join (List.replicate (3 - ds.length) " ") ++ ds

/-- Modelled from the spec: `internal.PercentageRound` lives in the
repository's `internal` package, which is not part of the given source;
§4.3 of the spec defines the displayed percentage as
`round(current/total*100)`.  Integer rounding (half away from zero for
the non-negative operating range) of `100 * current / total`. -/
def percentageRound (total current : Int) : Int :=
  Int.tdiv (200 * current + total) (2 * total)

/-- The `before` segment of the rendered line (multi_live_printer.go,
lines 392-398), carried as unstyled text (styling is external and the
code strips it before measuring). -/
def beforeOf (env : RenderEnv) (p : ProgressbarPrinter) : String :=
  (if p.ShowTitle then p.Title ++ " " else "") ++
    (if p.ShowCount then
      "[" ++ zeroPad (1 + env.log10Floor p.Total).toNat p.Current ++ "/" ++
        toString p.Total ++ "]" ++ " "
    else "")

/-- The `after` segment of the rendered line (multi_live_printer.go,
lines 400-410), carried as unstyled text. -/
def afterOf (env : RenderEnv) (p : ProgressbarPrinter) : String :=
  " " ++
    (if p.ShowPercentage then
      spacePad3 (percentageRound p.Total p.Current) ++ "%" ++ " "
    else "") ++
    (if p.ShowElapsedTime then "| " ++ env.elapsedStr else "")

/-- `barMaxLength` (multi_live_printer.go, line 412): width minus the
visible (byte) lengths of the before and after segments minus 1. -/
def barMaxLengthOf (env : RenderEnv) (p : ProgressbarPrinter) : Int :=
  widthOf env p - (beforeOf env p).utf8ByteSize - (afterOf env p).utf8ByteSize - 1

/-- `barCurrentLength` (multi_live_printer.go, line 414): Go integer
division truncates toward zero, hence `Int.tdiv`. -/
def barCurrentLength (current total barMax : Int) : Int :=
  Int.tdiv (current * barMax) total

/-- The count passed to `strings.Repeat(p.BarCharacter, ...)`, as guarded
by `if barCurrentLength > 0` (multi_live_printer.go, lines 421-423);
`0` when the guard skips the repeat. -/
def filledCellCount (current total barMax : Int) : Int :=
  if barCurrentLength current total barMax > 0 then
    barCurrentLength current total barMax
  else 0

/-- The count passed to `strings.Repeat(p.BarFiller, ...)`, as guarded by
`if barMaxLength-barCurrentLength > 0` (multi_live_printer.go, lines
416-418); `0` when the guard skips the repeat. -/
def fillerCellCount (current total barMax : Int) : Int :=
  if barMax - barCurrentLength current total barMax > 0 then
    barMax - barCurrentLength current total barMax
  else 0

/-- `ProgressbarPrinter.getString` (multi_live_printer.go, lines 363-426).
Empty when inactive or `Total == 0`; otherwise before-segment, bar and
after-segment.  The two `strings.Repeat` calls keep their source guards. -/
def getString (env : RenderEnv) (p : ProgressbarPrinter) : String :=
  if p.IsActive = false then ""
  else if p.Total = 0 then ""
  else
    let before := beforeOf env p
    let after := afterOf env p
    let barMaxLength := barMaxLengthOf env p
    let bcl := barCurrentLength p.Current p.Total barMaxLength
    let fillerStr :=
      if barMaxLength - bcl > 0 then repeatStr p.BarFiller (barMaxLength - bcl).toNat
      else ""
    let bar :=
      if bcl > 0 then (repeatStr p.BarCharacter bcl.toNat ++ p.LastCharacter) ++ fillerStr
      else fillerStr
    (before ++ bar) ++ after

/-- Claim C1: with `Total == 0`, `Add` leaves the printer state and the
registry untouched and returns `nil`, and `getString` renders the empty
string, for every increment `n` and every environment. -/
theorem add_total_zero_noop (env : RenderEnv) (p : ProgressbarPrinter)
    (reg : List Nat) (pid : Nat) (n : Int) (h : p.Total = 0) :
    (Add p reg pid n).printer = p ∧ (Add p reg pid n).registry = reg ∧
    (Add p reg pid n).ret = none ∧ getString env p = "" := by
  refine ⟨?_, ?_, ?_, ?_⟩
  · unfold Add; simp [h]
  · unfold Add; simp [h]
  · unfold Add; simp [h]
  · unfold getString
    by_cases hA : p.IsActive = false <;> simp [h, hA]

/-- Sample printer in the disabled state (`Total == 0`). -/
def pDisabled : ProgressbarPrinter :=
  { Title := "t", Total := 0, Current := 3, BarCharacter := "#",
    LastCharacter := "#", BarFiller := "-", MaxWidth := 80,
    ShowElapsedTime := false, ShowCount := true, ShowTitle := true,
    ShowPercentage := true, RemoveWhenDone := false, IsActive := true }

/-- Sample render environment. -/
def envSample : RenderEnv :=
  { termWidth := 100, elapsedStr := "1s", log10Floor := fun _ => 0 }

/-- Witness for C1 at a concrete disabled printer. -/
theorem add_total_zero_noop_witness :
    (Add pDisabled [7] 7 5).printer = pDisabled ∧
    (Add pDisabled [7] 7 5).registry = [7] ∧
    (Add pDisabled [7] 7 5).ret = none ∧
    getString envSample pDisabled = "" :=
  add_total_zero_noop envSample pDisabled [7] 7 5 (by decide)

/-- Trace of printer states along a sequence of `Add` calls, starting
with the seed state; entry `i+1` is the state right after the `i`-th call. -/
def addTrace (p : ProgressbarPrinter) : List Int → List ProgressbarPrinter
  | [] => [p]
  | n :: ns => p :: addTrace (addStep p n) ns

/-- State at position `i` of the trace (`0` is the seed state). -/
def stateAt (p : ProgressbarPrinter) (ns : List Int) (i : Nat) :
    ProgressbarPrinter :=
  (addTrace p ns).getD i default

/-- Final state after the whole sequence of `Add` calls. -/
def runAdds (p : ProgressbarPrinter) (ns : List Int) : ProgressbarPrinter :=
  ns.foldl addStep p

/-- Number of `true → false` transitions between adjacent entries. -/
def falls : List Bool → Nat
  | a :: b :: rest => (if a && !b then 1 else 0) + falls (b :: rest)
  | _ => 0

/-- The `IsActive` flags along an `Add` trace. -/
def activeList (p : ProgressbarPrinter) (ns : List Int) : List Bool :=
  (addTrace p ns).map (fun q => q.IsActive)

theorem activeList_nil (p : ProgressbarPrinter) :
    activeList p [] = [p.IsActive] := rfl

theorem activeList_cons (p : ProgressbarPrinter) (n : Int) (ns : List Int) :
    activeList p (n :: ns) = p.IsActive :: activeList (addStep p n) ns := rfl

theorem activeList_head (p : ProgressbarPrinter) (ns : List Int) :
    ∃ t, activeList p ns = p.IsActive :: t := by
  cases ns with
  | nil => exact ⟨[], rfl⟩
  | cons n ns => exact ⟨activeList (addStep p n) ns, rfl⟩

theorem addStep_clamp_props (p : ProgressbarPrinter) (n : Int)
    (h0 : ¬ p.Total = 0) (h1 : p.Current + n ≥ p.Total) :
    (addStep p n).Total = p.Current + n ∧
    (addStep p n).Current = p.Current + n ∧
    (addStep p n).IsActive = false := by
  unfold addStep Add Stop
  by_cases hA : p.IsActive = false <;>
    simp [h0, h1, hA, ge_iff_le, le_refl]

theorem addStep_inactive (p : ProgressbarPrinter) (n : Int)
    (h : p.IsActive = false) : (addStep p n).IsActive = false := by
  unfold addStep Add Stop
  by_cases h0 : p.Total = 0
  · simp [h0, h]
  · by_cases h1 : p.Current + n ≥ p.Total <;> simp [h0, h1, h]

theorem addStep_total_pos (p : ProgressbarPrinter) (n : Int)
    (h : 0 < p.Total) : 0 < (addStep p n).Total := by
  unfold addStep Add Stop
  have h0 : ¬ p.Total = 0 := by omega
  by_cases h1 : p.Current + n ≥ p.Total
  · by_cases hA : p.IsActive = false <;> simp [h0, h1, hA] <;> omega
  · simp [h0, h1]; omega

theorem stateAt_zero (p : ProgressbarPrinter) (ns : List Int) :
    stateAt p ns 0 = p := by
  cases ns <;> rfl

theorem stateAt_succ (p : ProgressbarPrinter) (n : Int) (ns : List Int)
    (i : Nat) : stateAt p (n :: ns) (i + 1) = stateAt (addStep p n) ns i := rfl

theorem stateAt_step (p : ProgressbarPrinter) (ns : List Int) (i : Nat)
    (h : i < ns.length) :
    stateAt p ns (i + 1) = addStep (stateAt p ns i) (ns.getD i 0) := by
  induction ns generalizing p i with
  | nil => cases h
  | cons n ns ih =>
    cases i with
    | zero => simp [stateAt_succ, stateAt_zero, List.getD]
    | succ j =>
      rw [stateAt_succ, stateAt_succ, ih _ _ (by simpa using h)]
      simp [List.getD]

theorem stateAt_total_pos (p : ProgressbarPrinter) (ns : List Int) (i : Nat)
    (h : 0 < p.Total) (hi : i ≤ ns.length) : 0 < (stateAt p ns i).Total := by
  induction ns generalizing p i with
  | nil =>
    have : i = 0 := by simpa using hi
    rw [this, stateAt_zero]; exact h
  | cons n ns ih =>
    cases i with
    | zero => rw [stateAt_zero]; exact h
    | succ j =>
      rw [stateAt_succ]
      exact ih _ _ (addStep_total_pos p n h) (by simpa using hi)

theorem foldl_addStep_inactive (ms : List Int) (q : ProgressbarPrinter)
    (h : q.IsActive = false) : (ms.foldl addStep q).IsActive = false := by
  induction ms generalizing q with
  | nil => exact h
  | cons m ms ih => exact ih _ (addStep_inactive q m h)

theorem runAdds_from (p : ProgressbarPrinter) (ns : List Int) (j : Nat)
    (hj : j ≤ ns.length) :
    runAdds p ns = (ns.drop j).foldl addStep (stateAt p ns j) := by
  induction ns generalizing p j with
  | nil =>
    have : j = 0 := by simpa using hj
    simp [this, runAdds, stateAt_zero]
  | cons n ns ih =>
    cases j with
    | zero => rw [stateAt_zero]; rfl
    | succ k =>
      rw [stateAt_succ]
      have : runAdds p (n :: ns) = runAdds (addStep p n) ns := rfl
      rw [this, ih _ _ (by simpa using hj)]
      rfl

theorem falls_cons_cons (a b : Bool) (t : List Bool) :
    falls (a :: b :: t) = (if a && !b then 1 else 0) + falls (b :: t) := rfl

theorem falls_of_inactive (ns : List Int) (p : ProgressbarPrinter)
    (h : p.IsActive = false) : falls (activeList p ns) = 0 := by
  induction ns generalizing p with
  | nil => rw [activeList_nil]; rfl
  | cons n ns ih =>
    obtain ⟨t, ht⟩ := activeList_head (addStep p n) ns
    rw [activeList_cons, ht, falls_cons_cons, ← ht, h,
      ih _ (addStep_inactive p n h)]
    simp

theorem falls_of_run_inactive (ns : List Int) (p : ProgressbarPrinter)
    (hA : p.IsActive = true) (hEnd : (runAdds p ns).IsActive = false) :
    falls (activeList p ns) = 1 := by
  induction ns generalizing p with
  | nil =>
    exact absurd hEnd (by simp [runAdds, hA])
  | cons n ns ih =>
    obtain ⟨t, ht⟩ := activeList_head (addStep p n) ns
    rw [activeList_cons, ht, falls_cons_cons, ← ht, hA]
    have hEnd' : (runAdds (addStep p n) ns).IsActive = false := hEnd
    by_cases hq : (addStep p n).IsActive = true
    · rw [hq, ih _ hq hEnd']; simp
    · have hq' : (addStep p n).IsActive = false := by
        cases hfl : (addStep p n).IsActive
        · rfl
        · exact absurd hfl hq
      rw [hq', falls_of_inactive ns _ hq']; simp

/-- Claim C2: from an active printer with positive `Total`, an `Add`
whose resulting cumulative `Current` reaches `Total` leaves `Total`
equal to that `Current`, leaves the printer stopped, keeps it stopped
for the rest of the sequence, and `IsActive` falls from true to false
exactly once over the whole trace. -/
theorem add_overflow_clamps_and_stops (p : ProgressbarPrinter)
    (ns : List Int) (i : Nat) (hA : p.IsActive = true) (hT : 0 < p.Total)
    (hi : i < ns.length)
    (hclamp : (stateAt p ns i).Current + ns.getD i 0 ≥ (stateAt p ns i).Total) :
    (stateAt p ns (i + 1)).Total = (stateAt p ns (i + 1)).Current ∧
    (stateAt p ns (i + 1)).IsActive = false ∧
    (runAdds p ns).IsActive = false ∧
    falls (activeList p ns) = 1 := by
  have hqT : 0 < (stateAt p ns i).Total :=
    stateAt_total_pos p ns i hT (Nat.le_of_lt hi)
  have hstep := stateAt_step p ns i hi
  have hprops := addStep_clamp_props (stateAt p ns i) (ns.getD i 0)
    (by omega) hclamp
  have h1 : (stateAt p ns (i + 1)).Total = (stateAt p ns (i + 1)).Current := by
    rw [hstep, hprops.1, hprops.2.1]
  have h2 : (stateAt p ns (i + 1)).IsActive = false := by
    rw [hstep]; exact hprops.2.2
  have h3 : (runAdds p ns).IsActive = false := by
    rw [runAdds_from p ns (i + 1) hi]
    exact foldl_addStep_inactive _ _ h2
  exact ⟨h1, h2, h3, falls_of_run_inactive ns p hA h3⟩

/-- Sample active printer with `Total = 10`. -/
def pTen : ProgressbarPrinter :=
  { Title := "", Total := 10, Current := 0, BarCharacter := "#",
    LastCharacter := "#", BarFiller := "-", MaxWidth := 80,
    ShowElapsedTime := false, ShowCount := false, ShowTitle := false,
    ShowPercentage := false, RemoveWhenDone := false, IsActive := true }

/-- Witness for C2 on the spec's example: `Total=10`, adds `4,4,4`. -/
theorem add_overflow_clamps_and_stops_witness :
    (stateAt pTen [4, 4, 4] 3).Total = (stateAt pTen [4, 4, 4] 3).Current ∧
    (stateAt pTen [4, 4, 4] 3).IsActive = false ∧
    (runAdds pTen [4, 4, 4]).IsActive = false ∧
    falls (activeList pTen [4, 4, 4]) = 1 :=
  add_overflow_clamps_and_stops pTen [4, 4, 4] 2 (by decide) (by decide)
    (by decide) (by decide)

/-- Claim C6: for `0 ≤ Current ≤ Total`, `0 < Total` and a positive bar
area, the filled-cell count `(Current * barMaxLength) / Total` (Go
truncated division) is non-negative and at most the bar area. -/
theorem barCurrentLength_bounds (current total barMax : Int)
    (h0 : 0 ≤ current) (h1 : current ≤ total) (h2 : 0 < total)
    (h3 : 0 < barMax) :
    0 ≤ barCurrentLength current total barMax ∧
    barCurrentLength current total barMax ≤ barMax := by
  unfold barCurrentLength
  have hnn : 0 ≤ current * barMax := mul_nonneg h0 (le_of_lt h3)
  constructor
  · exact Int.tdiv_nonneg hnn (le_of_lt h2)
  · rw [Int.tdiv_eq_ediv hnn (le_of_lt h2)]
    calc current * barMax / total ≤ total * barMax / total :=
          Int.ediv_le_ediv h2 (mul_le_mul_of_nonneg_right h1 (le_of_lt h3))
    _ = barMax := Int.mul_ediv_cancel_left _ (by omega)

/-- Witness for C6 at `Current = 3`, `Total = 10`, bar area `20`. -/
theorem barCurrentLength_bounds_witness :
    0 ≤ barCurrentLength 3 10 20 ∧ barCurrentLength 3 10 20 ≤ 20 :=
  barCurrentLength_bounds 3 10 20 (by decide) (by decide) (by decide)
    (by decide)

theorem tdiv_mul_nonpos_bounds (c t b : Int) (h0 : 0 ≤ c) (h1 : c ≤ t)
    (h2 : 0 < t) (hb : b ≤ 0) :
    Int.tdiv (c * b) t ≤ 0 ∧ b ≤ Int.tdiv (c * b) t := by
  have hx : c * b = -(c * -b) := by ring
  rw [hx, Int.neg_tdiv]
  have hnn : 0 ≤ c * -b := mul_nonneg h0 (by omega)
  have hpos : 0 ≤ Int.tdiv (c * -b) t := Int.tdiv_nonneg hnn (le_of_lt h2)
  have hle : Int.tdiv (c * -b) t ≤ -b := by
    rw [Int.tdiv_eq_ediv hnn (le_of_lt h2)]
    calc c * -b / t ≤ t * -b / t :=
          Int.ediv_le_ediv h2 (mul_le_mul_of_nonneg_right h1 (by omega))
    _ = -b := Int.mul_ediv_cancel_left _ (by omega)
  omega

/-- Claim C7 (amended): for an active printer whose `Current` lies in
`[0, Total]` with `0 < Total`, a non-positive computed bar area makes
both repeat counts zero, and `getString` degrades to just the before and
after segments, returning normally.  (As stated, the claim fails when
`Current` exceeds `Total` — see the counterexample theorem.) -/
theorem bar_area_nonpos_renders_empty_bar (env : RenderEnv)
    (p : ProgressbarPrinter) (hA : p.IsActive = true)
    (h0 : 0 ≤ p.Current) (h1 : p.Current ≤ p.Total) (h2 : 0 < p.Total)
    (hB : barMaxLengthOf env p ≤ 0) :
    filledCellCount p.Current p.Total (barMaxLengthOf env p) = 0 ∧
    fillerCellCount p.Current p.Total (barMaxLengthOf env p) = 0 ∧
    getString env p = beforeOf env p ++ afterOf env p := by
  have hbounds := tdiv_mul_nonpos_bounds p.Current p.Total
    (barMaxLengthOf env p) h0 h1 h2 hB
  have hbcl : barCurrentLength p.Current p.Total (barMaxLengthOf env p) ≤ 0 :=
    hbounds.1
  have hge : barMaxLengthOf env p ≤
      barCurrentLength p.Current p.Total (barMaxLengthOf env p) :=
    hbounds.2
  refine ⟨?_, ?_, ?_⟩
  · unfold filledCellCount
    rw [if_neg (by omega)]
  · unfold fillerCellCount
    rw [if_neg (by omega)]
  · unfold getString
    rw [if_neg (by simp [hA]), if_neg (by omega)]
    simp only []
    rw [if_neg (by omega), if_neg (by omega)]
    have hemp : (beforeOf env p ++ "") = beforeOf env p := by
      apply String.ext
      simp
    rw [hemp]

/-- Active printer with all display flags off and `Current` inside
`[0, Total]`; with a one-column terminal its bar area is `-1`. -/
def pNarrow : ProgressbarPrinter :=
  { Title := "", Total := 10, Current := 3, BarCharacter := "#",
    LastCharacter := "#", BarFiller := "-", MaxWidth := 0,
    ShowElapsedTime := false, ShowCount := false, ShowTitle := false,
    ShowPercentage := false, RemoveWhenDone := false, IsActive := true }

/-- One-column terminal. -/
def envNarrow : RenderEnv :=
  { termWidth := 1, elapsedStr := "", log10Floor := fun _ => 0 }

/-- Witness for the amended C7 at a concrete narrow terminal. -/
theorem bar_area_nonpos_renders_empty_bar_witness :
    filledCellCount pNarrow.Current pNarrow.Total
      (barMaxLengthOf envNarrow pNarrow) = 0 ∧
    fillerCellCount pNarrow.Current pNarrow.Total
      (barMaxLengthOf envNarrow pNarrow) = 0 ∧
    getString envNarrow pNarrow = beforeOf envNarrow pNarrow ++
      afterOf envNarrow pNarrow :=
  bar_area_nonpos_renders_empty_bar envNarrow pNarrow (by decide) (by decide)
    (by decide) (by decide) (by decide)

/-- Same printer as `pNarrow` but mid-overflow (`Current = 20 > Total`),
a state `Add` renders before clamping `Total`. -/
def pOverflow : ProgressbarPrinter :=
  { Title := "", Total := 10, Current := 20, BarCharacter := "#",
    LastCharacter := "#", BarFiller := "-", MaxWidth := 0,
    ShowElapsedTime := false, ShowCount := false, ShowTitle := false,
    ShowPercentage := false, RemoveWhenDone := false, IsActive := true }

/-- Counterexample to C7 as stated: with `Current = 20`, `Total = 10` and
computed bar area `-1`, the filler repeat count is `1`, not `0`, and
`getString` renders one filler cell. -/
theorem bar_area_nonpos_cex :
    barMaxLengthOf envNarrow pOverflow = -1 ∧
    fillerCellCount pOverflow.Current pOverflow.Total
      (barMaxLengthOf envNarrow pOverflow) = 1 ∧
    getString envNarrow pOverflow = "- " := by
  refine ⟨by decide, by decide, by decide⟩

/-- `strings.Trim(s, cutset)`: remove leading and trailing characters
belonging to `cut`. -/
def trimChars (cut : List Char) (l : List Char) : List Char :=
  ((l.dropWhile (fun c => cut.contains c)).reverse.dropWhile
    (fun c => cut.contains c)).reverse

/-- `strings.Split(s, "\r")`: the carriage-return-separated segments,
always at least one (possibly empty) segment. -/
def splitOnCR (l : List Char) : List (List Char) :=
  match l with
  | [] => [[]]
  | c :: rest =>
    let r := splitOnCR rest
    if c = '\r' then [] :: r
    else
      match r with
      | [] => [[c]]
      | h :: t => (c :: h) :: t

/-- The backward walk of multi_live_printer.go, lines 88-90: starting
from the last segment, keep replacing an empty choice by the next
segment towards the front (the loop re-reads the last segment once,
which is harmless). -/
def crFallbackGo : List (List Char) → List Char → List Char
  | [], s => s
  | e :: rest, s => crFallbackGo rest (if s = [] then e else s)

/-- One buffer's contribution to the merged view (multi_live_printer.go,
lines 81-92): trim newlines, split on carriage returns, take the last
segment, walk backward past empty segments, trim stray newline and
carriage-return characters. -/
def bufferVisibleLine (b : String) : String :=
  let s0 := trimChars ['\n'] b.data
  let parts := splitOnCR s0
  let s1 := crFallbackGo parts.reverse (parts.getLastD [])
  String.mk (trimChars ['\n', '\r'] s1)

/-- `MultiPrinter.getString` (multi_live_printer.go, lines 75-97) on the
registered buffers' contents, in registration order: each buffer's
visible line followed by a single newline. -/
def multiGetString : List String → String
  | [] => ""
  | b :: rest => (bufferVisibleLine b ++ "\n") ++ multiGetString rest

/-- Claim C4: a buffer holding `"A\rB\rC"` contributes the line `"C"`;
a buffer holding `"A\r\r"` falls back to `"A"`. -/
theorem carriage_return_collapse :
    bufferVisibleLine "A\rB\rC" = "C" ∧ bufferVisibleLine "A\r\r" = "A" ∧
    multiGetString ["A\rB\rC"] = "C\n" ∧ multiGetString ["A\r\r"] = "A\n" := by
  refine ⟨by decide, by decide, by decide, by decide⟩

theorem strAppend_empty (s : String) : s ++ "" = s := by
  apply String.ext
  simp

theorem strEmpty_append (s : String) : "" ++ s = s := by
  apply String.ext
  simp

theorem strAppend_assoc (a b c : String) : (a ++ b) ++ c = a ++ (b ++ c) := by
  apply String.ext
  simp

/-- Number of newline characters in a string. -/
def countNL (s : String) : Nat := s.data.count '\n'

theorem countNL_append (s t : String) :
    countNL (s ++ t) = countNL s + countNL t := by
  unfold countNL
  rw [String.data_append, List.count_append]

/-- Counterexample to C10 as stated: one registered buffer whose content
carries an interior newline (`"X\nY"`) yields a merged output with two
newline characters, not one per buffer. -/
theorem multiGetString_newline_count_cex :
    countNL (multiGetString ["X\nY"]) ≠ (["X\nY"] : List String).length := by
  decide

/-- Claim C10 (amended): the merged output is one newline-terminated
segment per registered buffer, so it ends in a newline whenever a buffer
is registered and carries `length bufs` newline terminators plus any
newlines inside the chosen visible segments (so exactly `length bufs`
only when no visible segment has an interior newline); a never-written
buffer contributes a blank line. -/
theorem multiGetString_newlines (bufs : List String) :
    countNL (multiGetString bufs) =
      bufs.length + (bufs.map (fun b => countNL (bufferVisibleLine b))).sum ∧
    (bufs ≠ [] → ∃ t, multiGetString bufs = t ++ "\n") ∧
    bufferVisibleLine "" = "" := by
  refine ⟨?_, ?_, by decide⟩
  · induction bufs with
    | nil => rfl
    | cons b rest ih =>
      show countNL ((bufferVisibleLine b ++ "\n") ++ multiGetString rest) = _
      rw [countNL_append, countNL_append, ih]
      have h1 : countNL "\n" = 1 := rfl
      simp [h1]
      omega
  · intro hne
    induction bufs with
    | nil => exact absurd rfl hne
    | cons b rest ih =>
      cases rest with
      | nil =>
        refine ⟨bufferVisibleLine b, ?_⟩
        show (bufferVisibleLine b ++ "\n") ++ "" = _
        rw [strAppend_empty]
      | cons c rest2 =>
        obtain ⟨t, ht⟩ := ih (by simp)
        refine ⟨(bufferVisibleLine b ++ "\n") ++ t, ?_⟩
        show (bufferVisibleLine b ++ "\n") ++ multiGetString (c :: rest2) = _
        rw [ht]
        simp [strAppend_assoc]

/-- Witness for the amended C10 at a concrete buffer list. -/
theorem multiGetString_newlines_witness :
    countNL (multiGetString ["X\nY"]) =
      (["X\nY"] : List String).length +
        ((["X\nY"] : List String).map
          (fun b => countNL (bufferVisibleLine b))).sum ∧
    (∃ t, multiGetString ["X\nY"] = t ++ "\n") := by
  have h := multiGetString_newlines ["X\nY"]
  exact ⟨h.1, h.2.1 (by decide)⟩

/-- `syncBuffer.Write` through the handle returned by `NewWriter`:
append `data` to the buffer at registration index `i`. -/
def writeTo (bufs : List String) (i : Nat) (data : String) : List String :=
  bufs.set i (bufs.getD i "" ++ data)

/-- A sequence of writes, each targeting the buffer at the given index,
applied in arrival order. -/
def applyWrites (bufs : List String) (ws : List (Nat × String)) :
    List String :=
  ws.foldl (fun bs w => writeTo bs w.1 w.2) bufs

/-- Concatenation of all data written to buffer `i`, in write order. -/
def writesTo (ws : List (Nat × String)) (i : Nat) : String :=
  match ws with
  | [] => ""
  | w :: rest => (if w.1 = i then w.2 else "") ++ writesTo rest i

/-- Final content of buffer `i` after the write sequence: whatever it
held at registration time followed by its own writes. -/
def finalContent (init : List String) (ws : List (Nat × String))
    (i : Nat) : String :=
  init.getD i "" ++ writesTo ws i

theorem range_map_getD {α : Type} (l : List α) (d : α) :
    (List.range l.length).map (fun i => l.getD i d) = l := by
  induction l with
  | nil => rfl
  | cons a l ih =>
    rw [List.length_cons, List.range_succ_eq_map, List.map_cons, List.map_map]
    have hfun : ((fun i => (a :: l).getD i d) ∘ Nat.succ) =
        fun i => l.getD i d := by
      funext i
      simp [Nat.succ_eq_add_one]
    rw [hfun, ih]
    simp

theorem getD_set_self (l : List String) (i : Nat) (a : String)
    (h : i < l.length) : (l.set i a).getD i "" = a := by
  simp [List.getD_eq_getElem?_getD, List.getElem?_set_self h]

theorem getD_set_ne (l : List String) (i j : Nat) (a : String)
    (h : i ≠ j) : (l.set i a).getD j "" = l.getD j "" := by
  simp [List.getD_eq_getElem?_getD, List.getElem?_set_ne h]

theorem applyWrites_eq (ws : List (Nat × String)) (init : List String)
    (h : ∀ w ∈ ws, w.1 < init.length) :
    applyWrites init ws =
      (List.range init.length).map (finalContent init ws) := by
  induction ws generalizing init with
  | nil =>
    have heq : (List.range init.length).map (finalContent init []) =
        (List.range init.length).map (fun i => init.getD i "") := by
      apply List.map_congr_left
      intro i _
      show init.getD i "" ++ "" = init.getD i ""
      exact strAppend_empty _
    show init = _
    rw [heq, range_map_getD]
  | cons w ws ih =>
    obtain ⟨j, a⟩ := w
    have hj : j < init.length := h (j, a) (List.mem_cons_self _ _)
    have hlen : (writeTo init j a).length = init.length := by
      simp [writeTo]
    have h' : ∀ v ∈ ws, v.1 < (writeTo init j a).length := by
      intro v hv
      rw [hlen]
      exact h v (List.mem_cons_of_mem _ hv)
    have step : applyWrites init ((j, a) :: ws) =
        applyWrites (writeTo init j a) ws := rfl
    rw [step, ih _ h', hlen]
    apply List.map_congr_left
    intro i hi
    have hi' : i < init.length := List.mem_range.mp hi
    unfold finalContent
    by_cases hij : j = i
    · subst hij
      have hset : (writeTo init j a).getD j "" = init.getD j "" ++ a := by
        unfold writeTo
        exact getD_set_self _ _ _ hj
      have hw : writesTo ((j, a) :: ws) j = a ++ writesTo ws j := by
        simp [writesTo]
      rw [hset, hw, strAppend_assoc]
    · have hset : (writeTo init j a).getD i "" = init.getD i "" := by
        unfold writeTo
        exact getD_set_ne _ _ _ _ hij
      have hw : writesTo ((j, a) :: ws) i = "" ++ writesTo ws i := by
        simp [writesTo, hij]
      rw [hset, hw, strEmpty_append]

/-- Claim C5: for buffers registered in order and any interleaved write
sequence, the state after all writes is, position by position, each
buffer's own accumulated content in registration order, so the merged
output lists each buffer's latest visible line in exactly registration
order, independent of write timing. -/
theorem registration_order_stable (init : List String)
    (ws : List (Nat × String)) (h : ∀ w ∈ ws, w.1 < init.length) :
    applyWrites init ws =
      (List.range init.length).map (finalContent init ws) ∧
    multiGetString (applyWrites init ws) =
      multiGetString ((List.range init.length).map (finalContent init ws)) :=
  ⟨applyWrites_eq ws init h, congrArg _ (applyWrites_eq ws init h)⟩

/-- Witness for C5: two buffers written in reverse registration order. -/
theorem registration_order_stable_witness :
    applyWrites ["", ""] [(1, "x"), (0, "y")] =
      (List.range (["", ""] : List String).length).map
        (finalContent ["", ""] [(1, "x"), (0, "y")]) ∧
    multiGetString (applyWrites ["", ""] [(1, "x"), (0, "y")]) =
      multiGetString ((List.range (["", ""] : List String).length).map
        (finalContent ["", ""] [(1, "x"), (0, "y")])) :=
  registration_order_stable ["", ""] [(1, "x"), (0, "y")] (by decide)

end Pterm
